import Mathlib

/-!
Shallow embedding of the resolution core of the `@kayahr/cdi` dependency
injection library (`src/main/Context.ts`, `src/main/Injectable.ts`,
`src/main/QualifiedType.ts`, `src/main/Qualifier.ts`, `src/main/Scope.ts`,
`src/main/types.ts`).

Modelling conventions:
- JavaScript class identity is modelled by the full prototype chain of class
  identifiers (`ClassT.chain`, head = the class itself, last = `Object`), so
  `getSuperClass` drops the head of the chain, exactly mirroring
  `Object.getPrototypeOf(type.prototype).constructor` walking.
- The `QualifiedType` interning table of `QualifiedType.ts` guarantees one
  instance per (type, name) pair so pairs can be used as map keys compared by
  identity; in the embedding a qualified type is the constructor
  `Qualifier.qualified type name` and structural equality gives exactly the
  identity-equal-iff-components-equal guarantee, so the interning table needs
  no separate state.
- Promises are deferred completions stored in a world-level store; a
  settlement step (`stepPromise`) models the JS microtask that settles a
  promise and runs its attached reactions.
- All mutation (`Injectable.#instance`, the context maps, `Context.#active`)
  is explicit state passing on a `World`.
- The mutually recursive resolution functions are fueled; running out of fuel
  is a modelling artifact standing for the unbounded recursion the source
  performs (behaviour on cyclic graphs is explicitly undefined per the
  documentation).
- A world-level log (`World.invocations`) records every invocation of an
  injectable's factory ("recipe") together with the argument values it
  received, so that "the recipe is invoked (once / not at all / with these
  values)" becomes a statement about the log.
-/

namespace CDI

/-- Identity of one JavaScript class: a display name (used by
`Qualifier.toString`) and a unique id standing for reference identity. -/
structure ClassId where
  name : String
  uid : Nat
deriving DecidableEq

/-- A JavaScript class, represented by its prototype chain: the head is the
class itself, the following entries its superclasses, the last entry the
universal base class `Object`. -/
structure ClassT where
  chain : List ClassId
deriving DecidableEq

/-- Display name of a class (`type.name` in the source). -/
def ClassT.cname (c : ClassT) : String :=
  match c.chain with
  | [] => ""
  | h :: _ => h.name

/-- `getSuperClass` from `types.ts`:
`(Object.getPrototypeOf(type.prototype) as Class)?.constructor ?? null` —
returns the next class on the prototype chain, or null for `Object`. -/
def getSuperClass (c : ClassT) : Option ClassT :=
  match c.chain with
  | [] => none
  | [_] => none
  | _ :: rest => some ⟨rest⟩

/-- A name qualifier: a string or a symbol (symbols are modelled by a unique
id plus the description used by `Symbol.prototype.toString`). -/
inductive Name where
  | str (s : String)
  | sym (uid : Nat) (desc : String)
deriving DecidableEq

/-- `name.toString()` for a name (strings print as themselves, symbols as
`Symbol(desc)`). -/
def Name.render : Name → String
  | .str s => s
  | .sym _ d => "Symbol(" ++ d ++ ")"

/-- A dependency qualifier from `Qualifier.ts`: a class, a name (string or
symbol), or an interned qualified type. -/
inductive Qualifier where
  | typ (c : ClassT)
  | nm (n : Name)
  | qualified (c : ClassT) (n : Name)
deriving DecidableEq

/-- `Qualifier.toString` from `Qualifier.ts` combined with
`QualifiedType.toString` from `QualifiedType.ts`. -/
def Qualifier.toString : Qualifier → String
  | .typ c => "<" ++ c.cname ++ ">"
  | .nm (.str s) => "'" ++ s ++ "'"
  | .nm n => n.render
  | .qualified c n => "<" ++ c.cname ++ ":" ++ n.render ++ ">"

/-- `qualify(type, name)` from `QualifiedType.ts`: returns the unique
interned qualified type for the pair (interning is identity = structural
equality here, see the module comment). -/
def qualify (c : ClassT) (n : Name) : Qualifier :=
  Qualifier.qualified c n

/-- The injection scopes from `Scope.ts`. -/
inductive Scope where
  | SINGLETON
  | PROTOTYPE
deriving DecidableEq

/-- Runtime values of the modelled program: numbers, strings, context
references, and constructed class instances (`new type(...args)` is recorded
as the class plus the constructor arguments). -/
inductive Val where
  | num (n : Int)
  | strV (s : String)
  | ctx (id : Nat)
  | obj (cls : ClassT) (args : List Val)

/-- The `InjectionError`s thrown by the source, kept structured; the exact
message string of each is recovered by `Err.message`. `userErr` stands for
an arbitrary error thrown or rejected by user factory code. -/
inductive Err where
  | passThroughMissing (idx : Nat) (q : Qualifier)
  | notFound (q : Qualifier)
  | syncRequired (q : Qualifier)
  | userErr (s : String)

/-- The message strings built by the source's template literals. -/
def Err.message : Err → String
  | .passThroughMissing i q =>
      "Pass-through parameter " ++ ToString.toString i ++ " not found for dependency " ++ q.toString
  | .notFound q => "Dependency " ++ q.toString ++ " not found"
  | .syncRequired q =>
      "Asynchronous dependency " ++ q.toString ++ " can not be resolved synchronously"
  | .userErr s => s

/-- A resolution result as the source sees it: a plain value or a promise
(identified by its index in the world's promise store). This is the
`T | Promise<T>` union. -/
inductive Res where
  | val (v : Val)
  | prom (p : Nat)

/-- Whether a result is a promise (`value instanceof Promise`). -/
def Res.isProm : Res → Bool
  | .val _ => false
  | .prom _ => true

/-- What a factory ("recipe") call does: return a value synchronously, throw
synchronously, or return a promise that later settles to the given result. -/
inductive FOutcome where
  | ok (v : Val)
  | thrown (e : Err)
  | promise (r : Except Err Val)

/-- An injectable (producer) from `Injectable.ts`: artifact type, factory,
ordered parameter qualifiers (`none` is the pass-through sentinel `null`),
alias names, scope, and the mutable cache slot `#instance`
(`T | Promise<T> | null`). -/
structure Injectable where
  type : ClassT
  factory : List Val → FOutcome
  params : List (Option Qualifier)
  names : List Name
  scope : Scope
  inst : Option Res

/-- What a pending promise is waiting for:
- `root r`: a promise settling by itself to `r` (an async factory's result);
- `join deps injId q`: the promise built by `#createNewInstance`'s
  `(async () => this.#factory(...await Promise.all(values)))()` — it waits
  for all promises among `deps`, then invokes injectable `injId`'s factory;
- `chained p`: a promise adopting the result of promise `p` (the promise an
  `async` function returns when its body returns a promise). -/
inductive PromSrc where
  | root (r : Except Err Val)
  | join (deps : List Res) (injId : Nat) (q : Qualifier)
  | chained (p : Nat)

/-- The state of one promise. -/
inductive PromState where
  | pending (src : PromSrc)
  | fulfilled (v : Val)
  | rejected (e : Err)

/-- A promise in the store: its state plus attached reactions. The only
reaction kind the core attaches is `#getSingletonInstance`'s
`.then(instance => (this.#instance = instance))`, recorded as the id of the
injectable whose cache slot is overwritten on fulfillment. -/
structure Prom where
  state : PromState
  conts : List Nat

/-- One dependency injection context from `Context.ts`: the parent link and
the `#injectables` map (an association list from qualifier to the index of
the injectable in the world's injectable store). -/
structure ContextRec where
  parent : Option Nat
  table : List (Qualifier × Nat)

/-- The whole mutable state of the modelled program: the context tree, the
injectable store, the promise store, `Context.#active`, and the log of
factory invocations (injectable id, argument values). -/
structure World where
  contexts : List ContextRec
  injectables : List Injectable
  promises : List Prom
  active : Nat
  invocations : List (Nat × List Val)

/-! ### Association table operations (the JS `Map` used by `Context`) -/

/-- `Map.get`: first matching entry. -/
def tblGet (t : List (Qualifier × Nat)) (q : Qualifier) : Option Nat :=
  match t with
  | [] => none
  | e :: rest => if e.1 = q then some e.2 else tblGet rest q

/-- `Map.set`: replace the existing entry or append a new one. -/
def tblSet (t : List (Qualifier × Nat)) (q : Qualifier) (v : Nat) :
    List (Qualifier × Nat) :=
  match t with
  | [] => [(q, v)]
  | e :: rest => if e.1 = q then (q, v) :: rest else e :: tblSet rest q v

/-- `Map.delete`: remove the entry, reporting whether one was present. -/
def tblDelete (t : List (Qualifier × Nat)) (q : Qualifier) :
    List (Qualifier × Nat) × Bool :=
  match t with
  | [] => ([], false)
  | e :: rest =>
      if e.1 = q then (rest, true)
      else
        let r := tblDelete rest q
        (e :: r.1, r.2)

/-! ### Registration (`Context.#setInjectable`) -/

/-- The classes visited by the registration `do/while` loop of
`Context.#setInjectable`: the class itself followed by all its superclasses
up to `Object` (the loop `type = getSuperClass(type)` walking). -/
def ancestorsOf : List ClassId → List ClassT
  | [] => []
  | c :: rest => ⟨c :: rest⟩ :: ancestorsOf rest

/-- One iteration of the `#setInjectable` loop body for class `ty`:
`set(type, inj)`, and for each alias name `set(name, inj)` and
`set(qualify(type, name), inj)`. -/
def addClassKeys (t : List (Qualifier × Nat)) (ty : ClassT) (names : List Name)
    (id : Nat) : List (Qualifier × Nat) :=
  names.foldl (fun acc n => tblSet (tblSet acc (Qualifier.nm n) id) (qualify ty n) id)
    (tblSet t (Qualifier.typ ty) id)

/-- `Context.#setInjectable`: run the loop body for the injectable's type and
each of its superclasses. -/
def setInjectableKeys (t : List (Qualifier × Nat)) (ty : ClassT)
    (names : List Name) (id : Nat) : List (Qualifier × Nat) :=
  (ancestorsOf ty.chain).foldl (fun acc a => addClassKeys acc a names id) t

/-! ### World helpers -/

/-- Placeholder context for out-of-range reads (never hit in the scenarios). -/
def emptyCtxRec : ContextRec := ⟨none, []⟩

/-- Placeholder injectable for out-of-range reads. -/
def dummyInjectable : Injectable :=
  ⟨⟨[]⟩, fun _ => .thrown (.userErr "missing injectable"), [], [], .SINGLETON, none⟩

/-- Placeholder promise for out-of-range reads. -/
def dummyProm : Prom := ⟨.rejected (.userErr "missing promise"), []⟩

/-- Read a context by id. -/
def getCtx (w : World) (cid : Nat) : ContextRec :=
  w.contexts.getD cid emptyCtxRec

/-- Read an injectable by id. -/
def getInj (w : World) (id : Nat) : Injectable :=
  w.injectables.getD id dummyInjectable

/-- Read a promise by id. -/
def getProm (w : World) (p : Nat) : Prom :=
  w.promises.getD p dummyProm

/-- Overwrite an injectable's `#instance` cache slot. -/
def setInst (w : World) (id : Nat) (r : Option Res) : World :=
  { w with injectables := w.injectables.set id { getInj w id with inst := r } }

/-- Append a fresh promise to the store, returning its id. -/
def addProm (w : World) (p : Prom) : Nat × World :=
  (w.promises.length, { w with promises := w.promises ++ [p] })

/-- Attach a cache-overwrite reaction (`.then(instance => this.#instance =
instance)`) for injectable `id` to promise `p`. -/
def addCont (w : World) (p : Nat) (id : Nat) : World :=
  let pr := getProm w p
  { w with promises := w.promises.set p { pr with conts := pr.conts ++ [id] } }

/-- Record one factory ("recipe") invocation in the log. -/
def logInvoke (w : World) (id : Nat) (args : List Val) : World :=
  { w with invocations := w.invocations ++ [(id, args)] }

/-- Overwrite the state of promise `p` (its reactions are kept). -/
def setPromState (w : World) (p : Nat) (st : PromState) : World :=
  { w with promises := w.promises.set p { getProm w p with state := st } }

/-! ### Promise settlement -/

/-- Run the reactions attached to a promise that just fulfilled with `v`:
each one is `#getSingletonInstance`'s slot overwrite. -/
def runConts (w : World) (conts : List Nat) (v : Val) : World :=
  conts.foldl (fun acc id => setInst acc id (some (.val v))) w

/-- Settle promise `p` to `r`; on fulfillment the attached reactions run
(rejections run none — the source attaches only an `onFulfilled`). -/
def settleTo (w : World) (p : Nat) (r : Except Err Val) : World :=
  let pr := getProm w p
  match r with
  | .ok v =>
      let w1 := { w with promises := w.promises.set p { pr with state := .fulfilled v } }
      runConts w1 pr.conts v
  | .error e =>
      { w with promises := w.promises.set p { pr with state := .rejected e } }

/-- Status of `Promise.all` over the dependency results of a join. -/
inductive JoinStatus where
  | waiting
  | rejectedWith (e : Err)
  | ready (args : List Val)

/-- `Promise.all(values)`: ready with the settled values when every entry is
a plain value or a fulfilled promise; rejected when one rejected; waiting
while one is still pending. -/
def joinStatus (w : World) : List Res → JoinStatus
  | [] => .ready []
  | .val v :: rest =>
      match joinStatus w rest with
      | .ready args => .ready (v :: args)
      | s => s
  | .prom q :: rest =>
      match (getProm w q).state with
      | .fulfilled v =>
          match joinStatus w rest with
          | .ready args => .ready (v :: args)
          | s => s
      | .rejected e => .rejectedWith e
      | .pending _ => .waiting

/-- One settlement microtask for promise `p`:
- a `root` promise settles to its result and runs its reactions;
- a `chained` promise adopts its inner promise's settled result;
- a `join` promise (the `async` wrapper of `#createNewInstance`) waits for
  `Promise.all` over its dependencies, then invokes the injectable's factory
  with the settled values; a factory result that is itself a promise keeps
  the wrapper pending one more step (`await` of the inner promise);
- settled promises are left alone. -/
def stepPromise (w : World) (p : Nat) : World :=
  match (getProm w p).state with
  | .pending (.root r) => settleTo w p r
  | .pending (.chained q) =>
      match (getProm w q).state with
      | .fulfilled v => settleTo w p (.ok v)
      | .rejected e => settleTo w p (.error e)
      | .pending _ => w
  | .pending (.join deps injId _) =>
      match joinStatus w deps with
      | .waiting => w
      | .rejectedWith e => settleTo w p (.error e)
      | .ready args =>
          let w1 := logInvoke w injId args
          match (getInj w1 injId).factory args with
          | .ok v => settleTo w1 p (.ok v)
          | .thrown e => settleTo w1 p (.error e)
          | .promise r => setPromState w1 p (.pending (.root r))
  | .fulfilled _ => w
  | .rejected _ => w

/-! ### Resolution (`Context.#get`, `Injectable.get`) -/

/-- Result of one resolution call: a value-or-promise, a synchronously
thrown error, or fuel exhaustion (a modelling artifact standing for the
unbounded recursion of the source; cyclic graphs are undefined behaviour). -/
inductive GetResult where
  | ok (r : Res)
  | err (e : Err)
  | outOfFuel

/-- Result of resolving the whole parameter list. -/
inductive ListGetResult where
  | ok (rs : List Res)
  | err (e : Err)
  | outOfFuel

/-- The value under a non-promise result (total for convenience). -/
def Res.pureVal : Res → Val
  | .val v => v
  | .prom _ => Val.num 0

mutual

/-- `Context.#get` (and the public `get`): activate this context, look the
qualifier up in the own map, delegate to the parent when absent, throw
`NotFound` when absent everywhere, and re-activate the previous context on
every exit path (`finally`). The pass-through parameter list is threaded to
`Injectable.get` as the tests exercise it (`get(Test, ["test"])`). -/
def contextGet (fuel : Nat) (w : World) (cid : Nat) (q : Qualifier)
    (ps : Option (List Val)) : GetResult × World :=
  match fuel with
  | 0 => (.outOfFuel, w)
  | fuel + 1 =>
    let prev := w.active
    let w1 := { w with active := cid }
    let out :=
      match tblGet (getCtx w1 cid).table q with
      | some injId => injectableGet fuel w1 injId cid q ps
      | none =>
          match (getCtx w1 cid).parent with
          | some pid => contextGet fuel w1 pid q ps
          | none => (.err (.notFound q), w1)
    (out.1, { out.2 with active := prev })
termination_by structural fuel

/-- `Injectable.get`: prototype scope constructs on every call, singleton
scope goes through the cache (which ignores pass-through parameters). -/
def injectableGet (fuel : Nat) (w : World) (injId cid : Nat) (q : Qualifier)
    (ps : Option (List Val)) : GetResult × World :=
  match fuel with
  | 0 => (.outOfFuel, w)
  | fuel + 1 =>
    if (getInj w injId).scope = .PROTOTYPE then
      createNewInstance fuel w injId cid q ps
    else
      getSingletonInstance fuel w injId cid q
termination_by structural fuel

/-- `Injectable.#getSingletonInstance`: return the slot when filled;
otherwise construct, store the result (value or promise) in the slot, and on
a promise attach the settle-time slot overwrite. A synchronous throw leaves
the slot empty (the assignment's right-hand side threw). -/
def getSingletonInstance (fuel : Nat) (w : World) (injId cid : Nat)
    (q : Qualifier) : GetResult × World :=
  match fuel with
  | 0 => (.outOfFuel, w)
  | fuel + 1 =>
    match (getInj w injId).inst with
    | some r => (.ok r, w)
    | none =>
        match createNewInstance fuel w injId cid q none with
        | (.ok r, w1) =>
            let w2 := setInst w1 injId (some r)
            let w3 :=
              match r with
              | .prom p => addCont w2 p injId
              | .val _ => w2
            (.ok r, w3)
        | other => other
termination_by structural fuel

/-- `Injectable.#createNewInstance`: resolve the parameter values, then —
when some resolved value is a promise — return the `async` join wrapper as a
new pending promise (the factory runs only at its settlement step); when no
value is a promise, invoke the factory immediately and return its result
(wrapping an asynchronous factory's promise). -/
def createNewInstance (fuel : Nat) (w : World) (injId cid : Nat)
    (q : Qualifier) (ps : Option (List Val)) : GetResult × World :=
  match fuel with
  | 0 => (.outOfFuel, w)
  | fuel + 1 =>
    let inj := getInj w injId
    match resolveValues fuel w cid q (ps.getD []) inj.params 0 with
    | (.ok values, w1) =>
        if values.any Res.isProm then
          let pw := addProm w1 ⟨.pending (.join values injId q), []⟩
          (.ok (.prom pw.1), pw.2)
        else
          let args := values.map Res.pureVal
          let w2 := logInvoke w1 injId args
          match inj.factory args with
          | .ok v => (.ok (.val v), w2)
          | .thrown e => (.err e, w2)
          | .promise r =>
              let pw := addProm w2 ⟨.pending (.root r), []⟩
              (.ok (.prom pw.1), pw.2)
    | (.err e, w1) => (.err e, w1)
    | (.outOfFuel, w1) => (.outOfFuel, w1)
termination_by structural fuel

/-- The `this.#params.map(...)` body of `#createNewInstance`: `k` is the
running `paramIndex` of consumed pass-through arguments; a pass-through
sentinel (`none`) consumes the next caller argument or throws
`PassThroughMissing` with the 1-based index; a qualifier is requested from
the context (with no pass-through arguments of its own). -/
def resolveValues (fuel : Nat) (w : World) (cid : Nat) (q : Qualifier)
    (ps : List Val) (pl : List (Option Qualifier)) (k : Nat) :
    ListGetResult × World :=
  match fuel, pl with
  | 0, _ => (.outOfFuel, w)
  | _ + 1, [] => (.ok [], w)
  | fuel + 1, .none :: rest =>
      if k ≥ ps.length then (.err (.passThroughMissing (k + 1) q), w)
      else
        match resolveValues fuel w cid q ps rest (k + 1) with
        | (.ok vs, w1) => (.ok (.val (ps.getD k (Val.num 0)) :: vs), w1)
        | other => other
  | fuel + 1, .some pq :: rest =>
      match contextGet fuel w cid pq none with
      | (.ok r, w1) =>
          match resolveValues fuel w1 cid q ps rest k with
          | (.ok vs, w2) => (.ok (r :: vs), w2)
          | other => other
      | (.err e, w1) => (.err e, w1)
      | (.outOfFuel, w1) => (.outOfFuel, w1)
termination_by structural fuel

end


/-! ### The three call conventions (`get` / `getSync` / `getAsync`) -/

/-- `Context.getSync`: call `get`; a promise result throws
`SyncRequiredOnAsync`; a plain result is returned. -/
def getSyncF (fuel : Nat) (w : World) (cid : Nat) (q : Qualifier)
    (ps : Option (List Val)) : GetResult × World :=
  match contextGet fuel w cid q ps with
  | (.ok (.val v), w1) => (.ok (.val v), w1)
  | (.ok (.prom _), w1) => (.err (.syncRequired q), w1)
  | other => other

/-- `Context.getAsync`: the `async` wrapper around `get` — a plain value
becomes a promise fulfilling with it, a promise result is adopted, a thrown
error becomes a rejecting promise; the return is always a promise. -/
def getAsyncF (fuel : Nat) (w : World) (cid : Nat) (q : Qualifier)
    (ps : Option (List Val)) : GetResult × World :=
  match contextGet fuel w cid q ps with
  | (.ok (.val v), w1) =>
      let pw := addProm w1 ⟨.pending (.root (.ok v)), []⟩
      (.ok (.prom pw.1), pw.2)
  | (.ok (.prom p), w1) =>
      let pw := addProm w1 ⟨.pending (.chained p), []⟩
      (.ok (.prom pw.1), pw.2)
  | (.err e, w1) =>
      let pw := addProm w1 ⟨.pending (.root (.error e)), []⟩
      (.ok (.prom pw.1), pw.2)
  | (.outOfFuel, w1) => (.outOfFuel, w1)

/-- `Context.has`: does this context or an ancestor hold the qualifier (no
construction). Fueled against cyclic parent links; out of fuel answers
`true` so that `hasQ _ = false` always witnesses genuine absence. -/
def hasQ : Nat → World → Nat → Qualifier → Bool
  | 0, _, _, _ => true
  | fuel + 1, w, cid, q =>
      (tblGet (getCtx w cid).table q).isSome ||
        match (getCtx w cid).parent with
        | some pid => hasQ fuel w pid q
        | none => false

/-! ### Registration API and world construction -/

/-- The `Context` class itself as a JavaScript class (`value.constructor` of
a context): its prototype chain is `Context` then `Object`. -/
def contextClass : ClassT := ⟨[⟨"Context", 1⟩, ⟨"Object", 0⟩]⟩

/-- Store a new injectable and register it in context `cid` under all its
qualifiers (`Context.#setInjectable`), returning the injectable's id. -/
def addInjectable (w : World) (cid : Nat) (inj : Injectable) : Nat × World :=
  let id := w.injectables.length
  let c := getCtx w cid
  let c2 := { c with table := setInjectableKeys c.table inj.type inj.names id }
  (id, { w with
           injectables := w.injectables ++ [inj],
           contexts := w.contexts.set cid c2 })

/-- `Context.setValue(value, name?)`: register
`new Injectable(value.constructor, () => value, [], name)`. -/
def setValueP (w : World) (cid : Nat) (cls : ClassT) (v : Val)
    (names : List Name) : Nat × World :=
  addInjectable w cid ⟨cls, fun _ => .ok v, [], names, .SINGLETON, none⟩

/-- `Context.setClass(type, { inject, scope, name })`: register
`new Injectable(type, (...args) => new type(...args), inject, name, scope)`;
the constructed instance is recorded as `Val.obj type args`. -/
def setClassP (w : World) (cid : Nat) (ty : ClassT)
    (inject : List (Option Qualifier)) (scope : Scope) (names : List Name) :
    Nat × World :=
  addInjectable w cid ⟨ty, fun args => .ok (.obj ty args), inject, names, scope, none⟩

/-- `Context.setFactory(type, factory, options)` with an arbitrary factory
(synchronous or asynchronous), registered like `setClass`. -/
def setFactoryP (w : World) (cid : Nat) (ty : ClassT)
    (factory : List Val → FOutcome) (inject : List (Option Qualifier))
    (scope : Scope) (names : List Name) : Nat × World :=
  addInjectable w cid ⟨ty, factory, inject, names, scope, none⟩

/-- `private constructor(parent)` of `Context`: allocate the context record
and immediately `this.setValue(this)` — the context registers itself under
its own class and that class's superclasses. The context is not activated. -/
def newContext (w : World) (parent : Option Nat) : Nat × World :=
  let cid := w.contexts.length
  let w1 := { w with contexts := w.contexts ++ [⟨parent, []⟩] }
  (cid, (setValueP w1 cid contextClass (.ctx cid) []).2)

/-- `Context.createChildContext()`: a new context whose parent is `cid`. -/
def createChildContext (w : World) (cid : Nat) : Nat × World :=
  newContext w (some cid)

/-- The world at module load: only the static root context (id 0) exists and
is the active context. -/
def initWorld : World :=
  (newContext ⟨[], [], [], 0, []⟩ none).2

/-! ### Concrete scenario worlds (used to exercise the theorems) -/

/-- The universal base class `Object` (end of every prototype chain). -/
def objectClass : ClassT := ⟨[⟨"Object", 0⟩]⟩

/-- C10 scenario: context 1 (child of the root) owns a producer injecting
the `Context` qualifier; the request is made on context 2, a descendant of
context 1. -/
def ownClass : ClassT := ⟨[⟨"Own", 40⟩, ⟨"Object", 0⟩]⟩

def c10Base : World := (createChildContext initWorld 0).2

def c10WithOwn : World :=
  (setClassP c10Base 1 ownClass [some (.typ contextClass)] .SINGLETON []).2

def c10World : World := (createChildContext c10WithOwn 1).2

/-- A child of the root context (context id 1). -/
def childWorld : World := (createChildContext initWorld 0).2

/-- A plain synchronous dependency class. -/
def depA : ClassT := ⟨[⟨"DepA", 10⟩, ⟨"Object", 0⟩]⟩

/-- A prototype-scoped component with parameters
`[pass-through, DepA, pass-through]`. -/
def compClass : ClassT := ⟨[⟨"Component", 11⟩, ⟨"Object", 0⟩]⟩

def c5w1 : World := (setClassP childWorld 1 depA [] .SINGLETON []).2

def c5World : World :=
  (setClassP c5w1 1 compClass [none, some (.typ depA), none] .PROTOTYPE []).2

/-- The world after resolving `DepA` once on context 1. -/
def c5Res : World := (contextGet 10 c5World 1 (.typ depA) none).2

/-- A dependency produced by an asynchronous factory. -/
def asyncClass : ClassT := ⟨[⟨"AsyncDep", 20⟩, ⟨"Object", 0⟩]⟩

/-- A singleton class depending on the asynchronous dependency. -/
def testClass : ClassT := ⟨[⟨"Test", 21⟩, ⟨"Object", 0⟩]⟩

def c1w1 : World :=
  (setFactoryP childWorld 1 asyncClass (fun _ => .promise (.ok (.num 23))) []
    .SINGLETON []).2

def c1World : World :=
  (setClassP c1w1 1 testClass [some (.typ asyncClass)] .SINGLETON []).2

/-- The world after resolving `Test`'s parameter list once (its `AsyncDep`
parameter is an in-flight promise). -/
def c1Mid : World :=
  (resolveValues 10 c1World 1 (.typ testClass) [] [some (.typ asyncClass)] 0).2

/-- The world after the first `get(Test)`: the `Test` singleton slot holds
the in-flight join promise. -/
def c2After : World := (contextGet 20 c1World 1 (.typ testClass) none).2

/-- A two-level class hierarchy with an alias name, for registration. -/
def baseClass : ClassT := ⟨[⟨"Base", 50⟩, ⟨"Object", 0⟩]⟩

def subClass : ClassT := ⟨[⟨"Sub", 51⟩, ⟨"Base", 50⟩, ⟨"Object", 0⟩]⟩

/-- A singleton whose factory returns a promise that rejects. -/
def failClass : ClassT := ⟨[⟨"Fail", 30⟩, ⟨"Object", 0⟩]⟩

def c9World : World :=
  (setFactoryP childWorld 1 failClass
    (fun _ => .promise (.error (.userErr "boom"))) [] .SINGLETON []).2

/-- The world after the first `get(Fail)`: the singleton slot holds the
still-pending construction promise. -/
def c9AfterFirst : World := (contextGet 20 c9World 1 (.typ failClass) none).2

/-- The world after that promise rejected. -/
def c9Settled : World := stepPromise c9AfterFirst 0

/-! ### Frame lemmas: which state components the operations leave alone -/

theorem setInst_active (w : World) (id : Nat) (r : Option Res) :
    (setInst w id r).active = w.active := rfl

theorem addCont_active (w : World) (p id : Nat) :
    (addCont w p id).active = w.active := rfl

theorem logInvoke_active (w : World) (id : Nat) (a : List Val) :
    (logInvoke w id a).active = w.active := rfl

theorem addProm_active (w : World) (p : Prom) :
    (addProm w p).2.active = w.active := rfl

theorem runConts_active (w : World) (cs : List Nat) (v : Val) :
    (runConts w cs v).active = w.active := by
  induction cs generalizing w with
  | nil => rfl
  | cons c rest ih => simpa [runConts] using ih (setInst w c (some (.val v)))

theorem settleTo_active (w : World) (p : Nat) (r : Except Err Val) :
    (settleTo w p r).active = w.active := by
  cases r with
  | ok v => simpa [settleTo] using runConts_active _ (getProm w p).conts v
  | error e => rfl

theorem setPromState_active (w : World) (p : Nat) (st : PromState) :
    (setPromState w p st).active = w.active := rfl

theorem stepPromise_active (w : World) (p : Nat) :
    (stepPromise w p).active = w.active := by
  unfold stepPromise
  repeat' split
  all_goals try rfl
  all_goals try simp [settleTo_active, setPromState, logInvoke]
  all_goals (repeat' split) <;> simp [settleTo_active, setPromState, logInvoke]

theorem contextGet_active (fuel : Nat) (w : World) (cid : Nat) (q : Qualifier)
    (ps : Option (List Val)) : (contextGet fuel w cid q ps).2.active = w.active := by
  cases fuel <;> rfl

theorem resolveValues_active (fuel : Nat) : ∀ (w : World) (cid : Nat)
    (q : Qualifier) (ps : List Val) (pl : List (Option Qualifier)) (k : Nat),
    (resolveValues fuel w cid q ps pl k).2.active = w.active := by
  induction fuel with
  | zero => intros; rfl
  | succ f ih =>
      intro w cid q ps pl k
      cases pl with
      | nil => rfl
      | cons hd rest =>
          cases hd with
          | none =>
              by_cases hk : k ≥ ps.length
              · simp [resolveValues, hk]
              · have h2 := ih w cid q ps rest (k + 1)
                cases hrec : resolveValues f w cid q ps rest (k + 1) with
                | mk res w1 =>
                    rw [hrec] at h2
                    replace h2 : w1.active = w.active := h2
                    cases res <;> simp [resolveValues, hk, hrec, h2]
          | some pq =>
              have hcg := contextGet_active f w cid pq none
              cases hcg2 : contextGet f w cid pq none with
              | mk r w1 =>
                  rw [hcg2] at hcg
                  replace hcg : w1.active = w.active := hcg
                  cases r with
                  | ok rr =>
                      have h2 := ih w1 cid q ps rest k
                      cases hrec : resolveValues f w1 cid q ps rest k with
                      | mk res w2 =>
                          rw [hrec] at h2
                          replace h2 : w2.active = w1.active := h2
                          cases res <;> simp [resolveValues, hcg2, hrec, h2, hcg]
                  | err e => simp [resolveValues, hcg2, hcg]
                  | outOfFuel => simp [resolveValues, hcg2, hcg]

theorem createNewInstance_active (fuel : Nat) (w : World) (injId cid : Nat)
    (q : Qualifier) (ps : Option (List Val)) :
    (createNewInstance fuel w injId cid q ps).2.active = w.active := by
  cases fuel with
  | zero => rfl
  | succ f =>
      have hrv := resolveValues_active f w cid q (ps.getD []) (getInj w injId).params 0
      cases hrec : resolveValues f w cid q (ps.getD []) (getInj w injId).params 0 with
      | mk res w1 =>
          rw [hrec] at hrv
          replace hrv : w1.active = w.active := hrv
          cases res with
          | ok values =>
              by_cases hp : values.any Res.isProm
              · simp [createNewInstance, hrec, hp, addProm, hrv]
              · cases hf : (getInj w injId).factory (values.map Res.pureVal) <;>
                  simp [createNewInstance, hrec, hp, hf, addProm, logInvoke, hrv]
          | err e => simp [createNewInstance, hrec, hrv]
          | outOfFuel => simp [createNewInstance, hrec, hrv]

theorem getSingletonInstance_active (fuel : Nat) (w : World) (injId cid : Nat)
    (q : Qualifier) :
    (getSingletonInstance fuel w injId cid q).2.active = w.active := by
  cases fuel with
  | zero => rfl
  | succ f =>
      cases hi : (getInj w injId).inst with
      | some r => simp [getSingletonInstance, hi]
      | none =>
          have hcn := createNewInstance_active f w injId cid q none
          cases hrec : createNewInstance f w injId cid q none with
          | mk res w1 =>
              rw [hrec] at hcn
              replace hcn : w1.active = w.active := hcn
              cases res with
              | ok r =>
                  cases r <;>
                    simp [getSingletonInstance, hi, hrec, setInst_active, addCont_active,
                      setInst, addCont, hcn]
              | err e => simp [getSingletonInstance, hi, hrec, hcn]
              | outOfFuel => simp [getSingletonInstance, hi, hrec, hcn]

theorem injectableGet_active (fuel : Nat) (w : World) (injId cid : Nat)
    (q : Qualifier) (ps : Option (List Val)) :
    (injectableGet fuel w injId cid q ps).2.active = w.active := by
  cases fuel with
  | zero => rfl
  | succ f =>
      by_cases hs : (getInj w injId).scope = Scope.PROTOTYPE <;>
        simp [injectableGet, hs, createNewInstance_active, getSingletonInstance_active]

theorem getSyncF_active (fuel : Nat) (w : World) (cid : Nat) (q : Qualifier)
    (ps : Option (List Val)) : (getSyncF fuel w cid q ps).2.active = w.active := by
  have hcg := contextGet_active fuel w cid q ps
  cases hrec : contextGet fuel w cid q ps with
  | mk res w1 =>
      rw [hrec] at hcg
      replace hcg : w1.active = w.active := hcg
      cases res with
      | ok r => cases r <;> simp [getSyncF, hrec, hcg]
      | err e => simp [getSyncF, hrec, hcg]
      | outOfFuel => simp [getSyncF, hrec, hcg]

theorem getAsyncF_active (fuel : Nat) (w : World) (cid : Nat) (q : Qualifier)
    (ps : Option (List Val)) : (getAsyncF fuel w cid q ps).2.active = w.active := by
  have hcg := contextGet_active fuel w cid q ps
  cases hrec : contextGet fuel w cid q ps with
  | mk res w1 =>
      rw [hrec] at hcg
      replace hcg : w1.active = w.active := hcg
      cases res with
      | ok r => cases r <;> simp [getAsyncF, hrec, addProm, hcg]
      | err e => simp [getAsyncF, hrec, addProm, hcg]
      | outOfFuel => simp [getAsyncF, hrec, hcg]

/-! ### Claim theorems -/

/-- C4: every Context resolution operation (`get`, `getSync`, `getAsync`)
restores the previously active context on every exit path — whatever the
call produced (a value, a possibly still-pending promise, or a thrown
error), the process-wide active-context pointer after the call equals its
value before the call — and restoration is not deferred to settlement of a
returned promise: a promise settlement step never changes the active
pointer. -/
theorem C4_active_context_restored (fuel : Nat) (w : World) (cid : Nat)
    (q : Qualifier) (ps : Option (List Val)) (p : Nat) :
    (contextGet fuel w cid q ps).2.active = w.active
    ∧ (getSyncF fuel w cid q ps).2.active = w.active
    ∧ (getAsyncF fuel w cid q ps).2.active = w.active
    ∧ (stepPromise w p).active = w.active :=
  ⟨contextGet_active fuel w cid q ps, getSyncF_active fuel w cid q ps,
   getAsyncF_active fuel w cid q ps, stepPromise_active w p⟩

/-! ### Registration fan-out lemmas (towards C3) -/

theorem tblGet_set (t : List (Qualifier × Nat)) (q k : Qualifier) (v : Nat) :
    tblGet (tblSet t k v) q = if q = k then some v else tblGet t q := by
  induction t with
  | nil => by_cases h : q = k <;> simp [tblSet, tblGet, h, Ne.symm]
  | cons e rest ih =>
      by_cases he : e.1 = k
      · by_cases h : q = k <;> simp [tblSet, tblGet, he, h, Ne.symm]
      · by_cases h : q = e.1
        · simp [tblSet, tblGet, h, he]
        · have h2 : e.1 ≠ q := fun hh => h hh.symm
          simp [tblSet, tblGet, he, h, h2, ih]

/-- Every write performed while registering the alias names of one class
stores the same injectable id, so a key already mapping to `id` keeps
mapping to `id` through the name loop. -/
theorem tblGet_namefold_stable (ty : ClassT) (id : Nat) (q : Qualifier) :
    ∀ (ns : List Name) (acc : List (Qualifier × Nat)), tblGet acc q = some id →
    tblGet (ns.foldl (fun a n => tblSet (tblSet a (Qualifier.nm n) id) (qualify ty n) id) acc) q
      = some id := by
  intro ns
  induction ns with
  | nil => intro acc hc; simpa using hc
  | cons n rest ih =>
      intro acc hc
      refine ih _ ?_
      rw [tblGet_set]
      split
      · rfl
      · rw [tblGet_set]
        split
        · rfl
        · exact hc

/-- The name loop registers each alias name of the class. -/
theorem tblGet_namefold_nm (ty : ClassT) (id : Nat) (n : Name) :
    ∀ (ns : List Name) (acc : List (Qualifier × Nat)), n ∈ ns →
    tblGet (ns.foldl (fun a m => tblSet (tblSet a (Qualifier.nm m) id) (qualify ty m) id) acc)
      (Qualifier.nm n) = some id := by
  intro ns
  induction ns with
  | nil => intro acc h; cases h
  | cons m rest ih =>
      intro acc h
      rcases List.mem_cons.1 h with h1 | h2
      · subst h1
        refine tblGet_namefold_stable ty id _ rest _ ?_
        rw [tblGet_set]
        split
        · rfl
        · rw [tblGet_set]
          simp [qualify]
      · exact ih _ h2

/-- The name loop registers each (class, alias-name) qualified pair. -/
theorem tblGet_namefold_qualified (ty : ClassT) (id : Nat) (n : Name) :
    ∀ (ns : List Name) (acc : List (Qualifier × Nat)), n ∈ ns →
    tblGet (ns.foldl (fun a m => tblSet (tblSet a (Qualifier.nm m) id) (qualify ty m) id) acc)
      (qualify ty n) = some id := by
  intro ns
  induction ns with
  | nil => intro acc h; cases h
  | cons m rest ih =>
      intro acc h
      rcases List.mem_cons.1 h with h1 | h2
      · subst h1
        refine tblGet_namefold_stable ty id _ rest _ ?_
        rw [tblGet_set]
        simp [qualify]
      · exact ih _ h2

/-- One registration loop body preserves keys already mapping to `id`. -/
theorem tblGet_addClassKeys_stable (t : List (Qualifier × Nat)) (ty : ClassT)
    (names : List Name) (id : Nat) (q : Qualifier) (h : tblGet t q = some id) :
    tblGet (addClassKeys t ty names id) q = some id := by
  unfold addClassKeys
  refine tblGet_namefold_stable ty id q names _ ?_
  rw [tblGet_set]
  split
  · rfl
  · exact h

/-- One registration loop body registers the class under its type key. -/
theorem tblGet_addClassKeys_typ (t : List (Qualifier × Nat)) (ty : ClassT)
    (names : List Name) (id : Nat) :
    tblGet (addClassKeys t ty names id) (Qualifier.typ ty) = some id := by
  unfold addClassKeys
  refine tblGet_namefold_stable ty id _ names _ ?_
  rw [tblGet_set]
  simp

/-- One registration loop body registers every alias name. -/
theorem tblGet_addClassKeys_nm (t : List (Qualifier × Nat)) (ty : ClassT)
    (names : List Name) (id : Nat) (n : Name) (hn : n ∈ names) :
    tblGet (addClassKeys t ty names id) (Qualifier.nm n) = some id :=
  tblGet_namefold_nm ty id n names _ hn

/-- One registration loop body registers every (class, alias) pair. -/
theorem tblGet_addClassKeys_qualified (t : List (Qualifier × Nat)) (ty : ClassT)
    (names : List Name) (id : Nat) (n : Name) (hn : n ∈ names) :
    tblGet (addClassKeys t ty names id) (qualify ty n) = some id :=
  tblGet_namefold_qualified ty id n names _ hn

/-- The superclass walk preserves keys already mapping to `id`. -/
theorem tblGet_ancfold_stable (names : List Name) (id : Nat) (q : Qualifier) :
    ∀ (l : List ClassT) (acc : List (Qualifier × Nat)), tblGet acc q = some id →
    tblGet (l.foldl (fun a c => addClassKeys a c names id) acc) q = some id := by
  intro l
  induction l with
  | nil => intro acc hc; simpa using hc
  | cons c rest ih =>
      intro acc hc
      exact ih _ (tblGet_addClassKeys_stable acc c names id q hc)

/-- `ancestorsOf` renders the `do/while` loop of `Context.#setInjectable`:
for a class with a nonempty prototype chain, the visited classes are the
class itself followed by the classes visited from `getSuperClass`. -/
theorem ancestorsOf_loop (ty : ClassT) (h : ty.chain ≠ []) :
    ancestorsOf ty.chain
      = ty :: (match getSuperClass ty with
               | some s => ancestorsOf s.chain
               | none => []) := by
  obtain ⟨c⟩ := ty
  cases c with
  | nil => exact absurd rfl h
  | cons hd tl => cases tl <;> simp [ancestorsOf, getSuperClass]

/-- The superclass walk registers the type key of every visited class. -/
theorem tblGet_ancfold_typ (names : List Name) (id : Nat) (a : ClassT) :
    ∀ (l : List ClassT) (acc : List (Qualifier × Nat)), a ∈ l →
    tblGet (l.foldl (fun t c => addClassKeys t c names id) acc) (Qualifier.typ a) = some id := by
  intro l
  induction l with
  | nil => intro acc h; cases h
  | cons c rest ih =>
      intro acc h
      rcases List.mem_cons.1 h with h1 | h2
      · subst h1
        exact tblGet_ancfold_stable names id _ rest _ (tblGet_addClassKeys_typ acc a names id)
      · exact ih _ h2

/-- The superclass walk registers every alias name (at each visited class,
in particular at the first one). -/
theorem tblGet_ancfold_nm (names : List Name) (id : Nat) (n : Name) (hn : n ∈ names) :
    ∀ (l : List ClassT) (acc : List (Qualifier × Nat)), l ≠ [] →
    tblGet (l.foldl (fun t c => addClassKeys t c names id) acc) (Qualifier.nm n) = some id := by
  intro l
  induction l with
  | nil => intro acc h; exact absurd rfl h
  | cons c rest ih =>
      intro acc _
      cases rest with
      | nil => exact tblGet_addClassKeys_nm acc c names id n hn
      | cons c2 r2 =>
          exact ih _ (by simp)

/-- The superclass walk registers the (visited class, alias) qualified pair
for every visited class and alias name. -/
theorem tblGet_ancfold_qualified (names : List Name) (id : Nat) (a : ClassT)
    (n : Name) (hn : n ∈ names) :
    ∀ (l : List ClassT) (acc : List (Qualifier × Nat)), a ∈ l →
    tblGet (l.foldl (fun t c => addClassKeys t c names id) acc) (qualify a n) = some id := by
  intro l
  induction l with
  | nil => intro acc h; cases h
  | cons c rest ih =>
      intro acc h
      rcases List.mem_cons.1 h with h1 | h2
      · subst h1
        exact tblGet_ancfold_stable names id _ rest _
          (tblGet_addClassKeys_qualified acc a names id n hn)
      · exact ih _ h2

/-- C3: `Context.#setInjectable` registers the producer — the same
injectable id — under its own type, under every superclass visited by the
`getSuperClass` walk (up to the universal base class), under every alias
name, and under every (visited class, alias name) qualified pair, so a
lookup by any of those qualifiers finds the same producer; and for a
singleton whose cache slot is populated, a `get` through any qualifier
mapped to that producer returns exactly the cached instance, unchanged
world. -/
theorem C3_registration_fanout (t : List (Qualifier × Nat)) (ty : ClassT)
    (names : List Name) (id : Nat) (a : ClassT) (n : Name) :
    (a ∈ ancestorsOf ty.chain →
       tblGet (setInjectableKeys t ty names id) (Qualifier.typ a) = some id)
    ∧ (ty.chain ≠ [] → n ∈ names →
       tblGet (setInjectableKeys t ty names id) (Qualifier.nm n) = some id)
    ∧ (a ∈ ancestorsOf ty.chain → n ∈ names →
       tblGet (setInjectableKeys t ty names id) (qualify a n) = some id)
    ∧ (∀ (f : Nat) (w : World) (cid : Nat) (ps : Option (List Val))
         (q2 : Qualifier) (r : Res),
         tblGet (getCtx w cid).table q2 = some id →
         (getInj w id).scope = Scope.SINGLETON →
         (getInj w id).inst = some r →
         contextGet (f + 3) w cid q2 ps = (.ok r, w)) := by
  refine ⟨?_, ?_, ?_, ?_⟩
  · intro ha
    exact tblGet_ancfold_typ names id a _ t ha
  · intro hne hn
    refine tblGet_ancfold_nm names id n hn _ t ?_
    obtain ⟨c⟩ := ty
    cases c with
    | nil => exact absurd rfl hne
    | cons hd tl => simp [ancestorsOf]
  · intro ha hn
    exact tblGet_ancfold_qualified names id a n hn _ t ha
  · intro f w cid ps q2 r h1 h2 h3
    have h1' : tblGet (getCtx { w with active := cid } cid).table q2 = some id := h1
    have h2' : (getInj { w with active := cid } id).scope = Scope.SINGLETON := h2
    have h3' : (getInj { w with active := cid } id).inst = some r := h3
    simp [contextGet, injectableGet, getSingletonInstance, h1', h2', h3']

/-! ### Lookup-walk lemmas (towards C6) -/

/-- `hasQ` only reads the context tree, never the active pointer or the
other stores. -/
theorem hasQ_congr (f : Nat) : ∀ (w w' : World), w'.contexts = w.contexts →
    ∀ (cid : Nat) (q : Qualifier), hasQ f w' cid q = hasQ f w cid q := by
  induction f with
  | zero => intros; rfl
  | succ g ih =>
      intro w w' h cid q
      simp only [hasQ, getCtx, h]
      cases (w.contexts.getD cid emptyCtxRec).parent with
      | none => rfl
      | some pid => simp [ih w w' h]

/-- A qualifier absent from the whole parent chain makes `#get` throw
`NotFound` and leave the world untouched. -/
theorem contextGet_notFound (f : Nat) : ∀ (w : World) (cid : Nat)
    (q : Qualifier) (ps : Option (List Val)), hasQ f w cid q = false →
    contextGet f w cid q ps = (.err (.notFound q), w) := by
  induction f with
  | zero => intro w cid q ps h; simp [hasQ] at h
  | succ g ih =>
      intro w cid q ps h
      simp only [hasQ, Bool.or_eq_false_iff] at h
      obtain ⟨hlocal, hparent⟩ := h
      have hl : tblGet (getCtx w cid).table q = none := by
        cases htb : tblGet (getCtx w cid).table q with
        | none => rfl
        | some v => rw [htb] at hlocal; simp at hlocal
      have hl' : tblGet (getCtx { w with active := cid } cid).table q = none := hl
      cases hp : (getCtx w cid).parent with
      | none =>
          have hp' : (getCtx { w with active := cid } cid).parent = none := hp
          simp [contextGet, hl', hp']
      | some pid =>
          have hp' : (getCtx { w with active := cid } cid).parent = some pid := hp
          rw [hp] at hparent
          have hrec := ih { w with active := cid } pid q ps
            (by rw [hasQ_congr g w { w with active := cid } rfl]; exact hparent)
          simp [contextGet, hl', hp', hrec]

/-- C6: resolution checks the own qualifier map first (a local hit is served
by the local producer), otherwise delegates to the parent context, and when
the qualifier is registered nowhere on the chain the call throws a
`NotFound` `InjectionError` whose message names the qualifier, leaving the
world — in particular the invocation log — unchanged, so no construction
happens in the failure case. -/
theorem C6_lookup_walk (f : Nat) (w : World) (cid : Nat) (q : Qualifier)
    (ps : Option (List Val)) :
    (∀ injId, tblGet (getCtx w cid).table q = some injId →
       contextGet (f + 1) w cid q ps
         = ((injectableGet f { w with active := cid } injId cid q ps).1,
            { (injectableGet f { w with active := cid } injId cid q ps).2 with
                active := w.active }))
    ∧ (∀ pid, tblGet (getCtx w cid).table q = none →
       (getCtx w cid).parent = some pid →
       contextGet (f + 1) w cid q ps
         = ((contextGet f { w with active := cid } pid q ps).1,
            { (contextGet f { w with active := cid } pid q ps).2 with
                active := w.active }))
    ∧ (hasQ f w cid q = false →
       contextGet f w cid q ps = (.err (.notFound q), w)
       ∧ (contextGet f w cid q ps).2.invocations = w.invocations)
    ∧ (Err.notFound q).message = "Dependency " ++ q.toString ++ " not found" := by
  refine ⟨?_, ?_, ?_, rfl⟩
  · intro injId h
    have h' : tblGet (getCtx { w with active := cid } cid).table q = some injId := h
    simp [contextGet, h']
  · intro pid h hp
    have h' : tblGet (getCtx { w with active := cid } cid).table q = none := h
    have hp' : (getCtx { w with active := cid } cid).parent = some pid := hp
    simp [contextGet, h', hp']
  · intro h
    have := contextGet_notFound f w cid q ps h
    exact ⟨this, by rw [this]⟩

/-- C7: `getSync` demands an already-plain result — a promise result (in
particular a still-pending one) makes it throw the `SyncRequiredOnAsync`
`InjectionError` instead of blocking, while a plain result is returned
as-is; `getAsync` always returns a promise: it wraps a plain value in a
fresh promise fulfilling to it, adopts a promise result, and turns a thrown
error into a rejecting promise. -/
theorem C7_getSync_getAsync (fuel : Nat) (w w1 : World) (cid : Nat)
    (q : Qualifier) (ps : Option (List Val)) (v : Val) (p : Nat) (e : Err) :
    (contextGet fuel w cid q ps = (.ok (.prom p), w1) →
       getSyncF fuel w cid q ps = (.err (.syncRequired q), w1))
    ∧ (contextGet fuel w cid q ps = (.ok (.val v), w1) →
       getSyncF fuel w cid q ps = (.ok (.val v), w1))
    ∧ (contextGet fuel w cid q ps = (.ok (.val v), w1) →
       getAsyncF fuel w cid q ps
         = (.ok (.prom w1.promises.length),
            { w1 with promises := w1.promises ++ [⟨.pending (.root (.ok v)), []⟩] }))
    ∧ (contextGet fuel w cid q ps = (.ok (.prom p), w1) →
       getAsyncF fuel w cid q ps
         = (.ok (.prom w1.promises.length),
            { w1 with promises := w1.promises ++ [⟨.pending (.chained p), []⟩] }))
    ∧ (contextGet fuel w cid q ps = (.err e, w1) →
       getAsyncF fuel w cid q ps
         = (.ok (.prom w1.promises.length),
            { w1 with promises := w1.promises ++ [⟨.pending (.root (.error e)), []⟩] }))
    ∧ (Err.syncRequired q).message
        = "Asynchronous dependency " ++ q.toString ++ " can not be resolved synchronously" := by
  refine ⟨?_, ?_, ?_, ?_, ?_, rfl⟩ <;> intro h <;>
    simp [getSyncF, getAsyncF, h, addProm]

/-! ### Cache-slot lemmas (towards C2) -/

theorem setInst_length (w : World) (id : Nat) (r : Option Res) :
    (setInst w id r).injectables.length = w.injectables.length := by
  simp [setInst]

theorem getInj_setInst_self (w : World) (id : Nat) (r : Option Res)
    (h : id < w.injectables.length) :
    getInj (setInst w id r) id = { getInj w id with inst := r } := by
  simp [setInst, getInj, List.getD_eq_getElem?_getD, List.getElem?_set_self h]

theorem getInj_setInst_ne (w : World) (id id' : Nat) (r : Option Res)
    (h : id ≠ id') : getInj (setInst w id r) id' = getInj w id' := by
  simp [setInst, getInj, List.getD_eq_getElem?_getD, List.getElem?_set_ne h]

theorem getInj_addCont (w : World) (p id id' : Nat) :
    getInj (addCont w p id) id' = getInj w id' := rfl

theorem runConts_cons (w : World) (c : Nat) (cs : List Nat) (v : Val) :
    runConts w (c :: cs) v = runConts (setInst w c (some (.val v))) cs v := rfl

/-- Running the settlement reactions overwrites exactly the slots of the
injectables listed in the reactions with the settled value. -/
theorem runConts_getInj (v : Val) : ∀ (cs : List Nat) (w : World) (i : Nat),
    i < w.injectables.length →
    (getInj (runConts w cs v) i).inst
      = if i ∈ cs then some (.val v) else (getInj w i).inst := by
  intro cs
  induction cs with
  | nil => intro w i h; simp [runConts]
  | cons c rest ih =>
      intro w i h
      have hlen : i < (setInst w c (some (.val v))).injectables.length := by
        rw [setInst_length]; exact h
      have hstep := ih (setInst w c (some (.val v))) i hlen
      rw [runConts_cons, hstep]
      by_cases hic : i = c
      · subst hic
        by_cases hir : i ∈ rest <;>
          simp [hir, getInj_setInst_self w i _ h]
      · have h2 : c ≠ i := fun hh => hic hh.symm
        by_cases hir : i ∈ rest <;>
          simp [hir, hic, getInj_setInst_ne w c i _ h2]

/-- C2: singleton caching — a filled cache slot is returned as-is with the
world unchanged (so any number of later calls, including ones arriving
while a stored first-call promise is still in flight, observe the same
stored result and trigger no construction); an empty slot triggers exactly
one construction whose result — value or promise — is stored in the slot,
with a settle-time overwrite reaction attached when it is a promise; when a
stored promise fulfills, the settlement step overwrites the slot with the
settled plain value even though no caller awaited it; and prototype scope
bypasses the cache entirely, constructing on every call. -/
theorem C2_singleton_at_most_once (f : Nat) (w w1 : World) (injId cid : Nat)
    (q : Qualifier) (ps : Option (List Val)) (r : Res) (u : World)
    (p : Nat) (v : Val) (cs : List Nat) :
    ((getInj w injId).inst = some r →
       getSingletonInstance (f + 1) w injId cid q = (.ok r, w))
    ∧ ((getInj w injId).inst = none →
       createNewInstance f w injId cid q none = (.ok r, w1) →
       getSingletonInstance (f + 1) w injId cid q
         = (.ok r, match r with
                   | .prom pp => addCont (setInst w1 injId (some r)) pp injId
                   | .val _ => setInst w1 injId (some r))
       ∧ (injId < w1.injectables.length →
           (getInj (getSingletonInstance (f + 1) w injId cid q).2 injId).inst
             = some r))
    ∧ ((getInj w injId).scope = Scope.SINGLETON →
       injectableGet (f + 1) w injId cid q ps
         = getSingletonInstance f w injId cid q)
    ∧ ((getInj w injId).scope = Scope.PROTOTYPE →
       injectableGet (f + 1) w injId cid q ps
         = createNewInstance f w injId cid q ps)
    ∧ (getProm u p = ⟨.pending (.root (.ok v)), cs⟩ → injId ∈ cs →
       injId < u.injectables.length →
       (getInj (stepPromise u p) injId).inst = some (.val v)) := by
  refine ⟨?_, ?_, ?_, ?_, ?_⟩
  · intro h
    simp [getSingletonInstance, h]
  · intro h hc
    refine ⟨?_, ?_⟩
    · cases r <;> simp [getSingletonInstance, h, hc]
    · intro hlen
      cases r with
      | val vv =>
          have heq : getSingletonInstance (f + 1) w injId cid q
              = (.ok (.val vv), setInst w1 injId (some (.val vv))) := by
            simp [getSingletonInstance, h, hc]
          rw [heq, getInj_setInst_self w1 injId _ hlen]
      | prom pp =>
          have heq : getSingletonInstance (f + 1) w injId cid q
              = (.ok (.prom pp),
                 addCont (setInst w1 injId (some (.prom pp))) pp injId) := by
            simp [getSingletonInstance, h, hc]
          rw [heq]
          show (getInj (addCont (setInst w1 injId (some (.prom pp))) pp injId)
              injId).inst = _
          rw [getInj_addCont, getInj_setInst_self w1 injId _ hlen]
  · intro h
    simp [injectableGet, h]
  · intro h
    simp [injectableGet, h]
  · intro h hin hlen
    have : stepPromise u p = runConts
        { u with promises := u.promises.set p { getProm u p with state := .fulfilled v } } cs v := by
      simp [stepPromise, h, settleTo]
    rw [this]
    have hlen2 : injId <
        ({ u with promises := u.promises.set p { getProm u p with state := .fulfilled v } }
          : World).injectables.length := hlen
    rw [runConts_getInj v cs _ injId hlen2]
    simp [hin]

/-! ### Invocation-log frame lemmas (towards C1) -/

theorem setInst_invocations (w : World) (id : Nat) (r : Option Res) :
    (setInst w id r).invocations = w.invocations := rfl

theorem runConts_invocations (v : Val) : ∀ (cs : List Nat) (w : World),
    (runConts w cs v).invocations = w.invocations := by
  intro cs
  induction cs with
  | nil => intro w; rfl
  | cons c rest ih =>
      intro w
      rw [runConts_cons, ih]
      rfl

theorem settleTo_invocations (w : World) (p : Nat) (r : Except Err Val) :
    (settleTo w p r).invocations = w.invocations := by
  cases r with
  | ok v =>
      show (runConts _ (getProm w p).conts v).invocations = _
      rw [runConts_invocations]
  | error e => rfl

/-- C1: the sync/async decision of `#createNewInstance` is taken per call
from the actual shape of the resolved parameter values. When at least one
resolved value is a (pending) promise, the construction returns a fresh
pending join promise and the recipe is not invoked at construction time;
the join settlement step leaves everything untouched while one dependency
promise is still pending, and invokes the recipe exactly once with the
settled values once `Promise.all` over the dependencies is ready. When no
resolved value is a promise, the recipe is invoked immediately and
synchronously with the concrete values and its plain result is returned
(an asynchronous recipe's own promise being returned as a promise). -/
theorem C1_sync_async_collapse (fuel : Nat) (w w1 : World) (injId cid : Nat)
    (q : Qualifier) (ps : Option (List Val)) (values : List Res)
    (hres : resolveValues fuel w cid q (ps.getD []) (getInj w injId).params 0
      = (.ok values, w1)) :
    (values.any Res.isProm = true →
       createNewInstance (fuel + 1) w injId cid q ps
         = (.ok (.prom w1.promises.length),
            { w1 with promises :=
                w1.promises ++ [⟨.pending (.join values injId q), []⟩] })
       ∧ (createNewInstance (fuel + 1) w injId cid q ps).2.invocations
           = w1.invocations)
    ∧ (values.any Res.isProm = false →
       createNewInstance (fuel + 1) w injId cid q ps
         = (match (getInj w injId).factory (values.map Res.pureVal) with
            | .ok v => (.ok (.val v), logInvoke w1 injId (values.map Res.pureVal))
            | .thrown e => (.err e, logInvoke w1 injId (values.map Res.pureVal))
            | .promise r =>
                (.ok (.prom w1.promises.length),
                 { logInvoke w1 injId (values.map Res.pureVal) with
                     promises := w1.promises ++ [⟨.pending (.root r), []⟩] }))
       ∧ (createNewInstance (fuel + 1) w injId cid q ps).2.invocations
           = w1.invocations ++ [(injId, values.map Res.pureVal)])
    ∧ (∀ (u : World) (pid : Nat) (deps : List Res) (injId2 : Nat)
         (q2 : Qualifier) (cs : List Nat),
        getProm u pid = ⟨.pending (.join deps injId2 q2), cs⟩ →
        (joinStatus u deps = .waiting → stepPromise u pid = u)
        ∧ (∀ args, joinStatus u deps = .ready args →
            (stepPromise u pid).invocations = u.invocations ++ [(injId2, args)])) := by
  refine ⟨?_, ?_, ?_⟩
  · intro hp
    have heq : createNewInstance (fuel + 1) w injId cid q ps
        = (.ok (.prom w1.promises.length),
           { w1 with promises :=
               w1.promises ++ [⟨.pending (.join values injId q), []⟩] }) := by
      simp [createNewInstance, hres, hp, addProm]
    exact ⟨heq, by rw [heq]⟩
  · intro hp
    have heq : createNewInstance (fuel + 1) w injId cid q ps
        = (match (getInj w injId).factory (values.map Res.pureVal) with
           | .ok v => (.ok (.val v), logInvoke w1 injId (values.map Res.pureVal))
           | .thrown e => (.err e, logInvoke w1 injId (values.map Res.pureVal))
           | .promise r =>
               (.ok (.prom w1.promises.length),
                { logInvoke w1 injId (values.map Res.pureVal) with
                    promises := w1.promises ++ [⟨.pending (.root r), []⟩] })) := by
      cases hf : (getInj w injId).factory (values.map Res.pureVal) <;>
        simp [createNewInstance, hres, hp, hf, addProm, logInvoke]
    refine ⟨heq, ?_⟩
    rw [heq]
    cases hf : (getInj w injId).factory (values.map Res.pureVal) <;>
      simp [logInvoke]
  · intro u pid deps injId2 q2 cs h
    refine ⟨?_, ?_⟩
    · intro hw
      simp [stepPromise, h, hw]
    · intro args hready
      have heq : stepPromise u pid
          = (match (getInj (logInvoke u injId2 args) injId2).factory args with
             | .ok v => settleTo (logInvoke u injId2 args) pid (.ok v)
             | .thrown e => settleTo (logInvoke u injId2 args) pid (.error e)
             | .promise r =>
                 setPromState (logInvoke u injId2 args) pid
                   (.pending (.root r))) := by
        simp [stepPromise, h, hready]
      rw [heq]
      cases hf : (getInj (logInvoke u injId2 args) injId2).factory args <;>
        simp [hf, settleTo_invocations, setPromState, logInvoke]

/-- C5: pass-through interleaving — with declared parameters
`[pass-through, qx, pass-through]` and caller arguments `[a, b]`, the
resolved value list is `[a, <qx instance>, b]`: each pass-through position
consumes the next unused caller argument in left-to-right order,
interleaved with the injected parameter so the original positional order is
preserved, and the recipe is invoked with exactly those arguments. -/
theorem C5_pass_through_interleaving (f : Nat) (w w1 : World) (injId cid : Nat)
    (q qx : Qualifier) (a b sv : Val)
    (hx : contextGet (f + 2) w cid qx none = (.ok (.val sv), w1)) :
    resolveValues (f + 4) w cid q [a, b] [none, some qx, none] 0
      = (.ok [.val a, .val sv, .val b], w1)
    ∧ ((getInj w injId).params = [none, some qx, none] →
       (createNewInstance (f + 5) w injId cid q (some [a, b])).2.invocations
         = w1.invocations ++ [(injId, [a, sv, b])]
       ∧ (∀ out, (getInj w injId).factory [a, sv, b] = .ok out →
          createNewInstance (f + 5) w injId cid q (some [a, b])
            = (.ok (.val out), logInvoke w1 injId [a, sv, b]))) := by
  have h1 : resolveValues (f + 4) w cid q [a, b] [none, some qx, none] 0
      = (.ok [.val a, .val sv, .val b], w1) := by
    simp [resolveValues, hx]
  refine ⟨h1, ?_⟩
  intro hparams
  have hmap : createNewInstance (f + 5) w injId cid q (some [a, b])
      = (match (getInj w injId).factory [a, sv, b] with
         | .ok v => (.ok (.val v), logInvoke w1 injId [a, sv, b])
         | .thrown e => (.err e, logInvoke w1 injId [a, sv, b])
         | .promise r =>
             (.ok (.prom w1.promises.length),
              { logInvoke w1 injId [a, sv, b] with
                  promises := w1.promises ++ [⟨.pending (.root r), []⟩] })) := by
    cases hf : (getInj w injId).factory [a, sv, b] <;>
      simp [createNewInstance, hparams, h1, hf, addProm, logInvoke, Res.pureVal,
        Res.isProm]
  refine ⟨?_, ?_⟩
  · rw [hmap]
    cases hf : (getInj w injId).factory [a, sv, b] <;> simp [hf, logInvoke]
  · intro out hout
    rw [hmap, hout]

/-! ### Pass-through exhaustion (towards C8) -/

/-- With only pass-through parameter positions, once the caller-supplied
arguments run out the parameter map throws `PassThroughMissing` with the
1-based count of consumed pass-through arguments plus one. -/
theorem resolveValues_exhausted (ps : List Val) (cid : Nat) (q : Qualifier) :
    ∀ (f k n : Nat) (w : World), k ≤ ps.length → ps.length < k + n →
    ps.length ≤ f + k →
    resolveValues (f + 1) w cid q ps (List.replicate n none) k
      = (.err (.passThroughMissing (ps.length + 1) q), w) := by
  intro f
  induction f with
  | zero =>
      intro k n w hk hlt hf
      have hk2 : k = ps.length := le_antisymm hk (by simpa using hf)
      subst hk2
      cases n with
      | zero => omega
      | succ m => simp [resolveValues, List.replicate_succ]
  | succ g ih =>
      intro k n w hk hlt hf
      cases n with
      | zero => omega
      | succ m =>
          by_cases hge : k ≥ ps.length
          · have hk2 : k = ps.length := le_antisymm hk hge
            subst hk2
            simp [resolveValues, List.replicate_succ]
          · have hklt : k < ps.length := lt_of_not_ge hge
            have hrec := ih (k + 1) m w (by omega) (by omega) (by omega)
            simp [resolveValues, List.replicate_succ, hge, hrec]

/-- C8: when the pass-through argument list is exhausted at a pass-through
parameter position, construction throws a `PassThroughMissing`
`InjectionError` whose message names the 1-based index of the missing
pass-through parameter (counting pass-through positions only) and the
requested qualifier, the world is left unchanged, and the recipe is never
invoked. The parameter list is arbitrary: the remaining positions after the
failing one are any mix of injected and pass-through entries; the running
counter is left unchanged by an injected position and incremented only by a
consuming pass-through position, so for the interleaved list
`[pass-through, qx, pass-through]` with a single caller argument the
failure at absolute position 3 is reported as pass-through index 2; the
pass-through-only list gives the closed form with index
`passThroughArgs.length + 1`. -/
theorem C8_pass_through_missing (f : Nat) (w w1 : World) (injId cid : Nat)
    (q qx : Qualifier) (ps : List Val) (rest : List (Option Qualifier))
    (k : Nat) (a sv : Val) :
    (k ≥ ps.length →
       resolveValues (f + 1) w cid q ps (.none :: rest) k
         = (.err (.passThroughMissing (k + 1) q), w))
    ∧ (∀ r, contextGet f w cid qx none = (.ok r, w1) →
       resolveValues (f + 1) w cid q ps (.some qx :: rest) k
         = (match resolveValues f w1 cid q ps rest k with
            | (.ok vs, w2) => (.ok (r :: vs), w2)
            | other => other))
    ∧ (k < ps.length →
       resolveValues (f + 1) w cid q ps (.none :: rest) k
         = (match resolveValues f w cid q ps rest (k + 1) with
            | (.ok vs, w2) => (.ok (.val (ps.getD k (Val.num 0)) :: vs), w2)
            | other => other))
    ∧ (contextGet (f + 1) w cid qx none = (.ok (.val sv), w1) →
       resolveValues (f + 3) w cid q [a] [.none, .some qx, .none] 0
         = (.err (.passThroughMissing 2 q), w1)
       ∧ ((getInj w injId).params = [.none, .some qx, .none] →
          createNewInstance (f + 4) w injId cid q (some [a])
            = (.err (.passThroughMissing 2 q), w1)
          ∧ (createNewInstance (f + 4) w injId cid q (some [a])).2.invocations
              = w1.invocations))
    ∧ (∀ n, ps.length < n → ps.length ≤ f →
       resolveValues (f + 1) w cid q ps (List.replicate n none) 0
         = (.err (.passThroughMissing (ps.length + 1) q), w)
       ∧ ((getInj w injId).params = List.replicate n none →
          createNewInstance (f + 2) w injId cid q (some ps)
            = (.err (.passThroughMissing (ps.length + 1) q), w)
          ∧ (createNewInstance (f + 2) w injId cid q (some ps)).2.invocations
              = w.invocations))
    ∧ (Err.passThroughMissing (k + 1) q).message
        = "Pass-through parameter " ++ ToString.toString (k + 1)
          ++ " not found for dependency " ++ q.toString := by
  refine ⟨?_, ?_, ?_, ?_, ?_, rfl⟩
  · intro hk
    simp [resolveValues, hk]
  · intro r h
    simp [resolveValues, h]
  · intro hk
    have hk2 : ¬ k ≥ ps.length := not_le.2 hk
    simp [resolveValues, hk2]
  · intro hx
    have h1 : resolveValues (f + 3) w cid q [a] [.none, .some qx, .none] 0
        = (.err (.passThroughMissing 2 q), w1) := by
      simp [resolveValues, hx]
    refine ⟨h1, ?_⟩
    intro hparams
    have heq : createNewInstance (f + 4) w injId cid q (some [a])
        = (.err (.passThroughMissing 2 q), w1) := by
      simp [createNewInstance, hparams, h1]
    exact ⟨heq, by rw [heq]⟩
  · intro n hlt hf
    have h1 := resolveValues_exhausted ps cid q f 0 n w (Nat.zero_le _)
      (by omega) (by omega)
    refine ⟨h1, ?_⟩
    intro hparams
    have heq : createNewInstance (f + 2) w injId cid q (some ps)
        = (.err (.passThroughMissing (ps.length + 1) q), w) := by
      simp [createNewInstance, hparams, h1]
    exact ⟨heq, by rw [heq]⟩

/-! ### Failure-caching lemmas (towards C9) -/

theorem getProm_pending_lt (u : World) (p : Nat) (src : PromSrc) (cs : List Nat)
    (h : getProm u p = ⟨.pending src, cs⟩) : p < u.promises.length := by
  by_contra hge
  rw [getProm, List.getD_eq_getElem?_getD,
    List.getElem?_eq_none (le_of_not_lt hge)] at h
  simp [dummyProm] at h

theorem getProm_set_self (u : World) (p : Nat) (pr : Prom)
    (h : p < u.promises.length) :
    getProm { u with promises := u.promises.set p pr } p = pr := by
  simp [getProm, List.getD_eq_getElem?_getD, List.getElem?_set_self h]

/-- C9 (amended): the singleton cache slot is populated immediately with
the construction result, not on settlement. A synchronously-thrown
construction error propagates with no slot write, so a later call (slot
still empty) retries construction; but a construction that returned a
promise stays in the slot even if that promise rejects — rejection runs no
reactions, the slot keeps the rejected promise, and every later call
replays that same stored rejected promise without retrying construction. -/
theorem C9_failed_singleton_caching (f : Nat) (w w1 : World) (injId cid : Nat)
    (q : Qualifier) (e : Err) (p : Nat) (u : World) (cs : List Nat) :
    ((getInj w injId).inst = none →
       createNewInstance f w injId cid q none = (.err e, w1) →
       getSingletonInstance (f + 1) w injId cid q = (.err e, w1))
    ∧ ((getInj w injId).inst = some (.prom p) →
       getSingletonInstance (f + 1) w injId cid q = (.ok (.prom p), w))
    ∧ (getProm u p = ⟨.pending (.root (.error e)), cs⟩ →
       (stepPromise u p).injectables = u.injectables
       ∧ getProm (stepPromise u p) p = ⟨.rejected e, cs⟩) := by
  refine ⟨?_, ?_, ?_⟩
  · intro h hc
    simp [getSingletonInstance, h, hc]
  · intro h
    simp [getSingletonInstance, h]
  · intro h
    have hlt := getProm_pending_lt u p _ cs h
    have heq : stepPromise u p = settleTo u p (.error e) := by
      simp [stepPromise, h]
    constructor
    · rw [heq]; rfl
    · rw [heq]
      have h2 : settleTo u p (.error e) = { u with promises := u.promises.set p { getProm u p with state := .rejected e } } := rfl
      rw [h2, getProm_set_self u p _ hlt, h]

/-! ### Context self-registration (towards C10) -/

theorem concat_getD {α : Type} (l : List α) (x d : α) :
    (l ++ [x]).getD l.length d = x := by
  simp [List.getD_eq_getElem?_getD, List.getElem?_concat_length]

theorem concat_set_getD {α : Type} (l : List α) (x y d : α) :
    ((l ++ [x]).set l.length y).getD l.length d = y := by
  rw [List.set_append_right _ _ (le_refl _), Nat.sub_self]
  show (l ++ [y]).getD l.length d = y
  exact concat_getD l y d

/-- The fresh context's qualifier table and self-value injectable produced
by the `Context` constructor's `this.setValue(this)`: the table maps the
`Context` class and its superclass `Object` to the freshly stored
injectable, whose factory returns the context itself. -/
theorem newContext_parts (w : World) (parent : Option Nat) :
    getCtx (newContext w parent).2 (newContext w parent).1
      = ⟨parent, [(Qualifier.typ contextClass, w.injectables.length),
                  (Qualifier.typ objectClass, w.injectables.length)]⟩
    ∧ getInj (newContext w parent).2 w.injectables.length
      = ⟨contextClass, fun _ => .ok (.ctx w.contexts.length), [], [],
         .SINGLETON, none⟩ := by
  constructor
  · simp only [newContext, setValueP, addInjectable, getCtx]
    rw [concat_getD, concat_set_getD]
    simp [setInjectableKeys, ancestorsOf, addClassKeys, tblSet, contextClass,
      objectClass, qualify]
  · simp only [newContext, setValueP, addInjectable, getInj]
    exact concat_getD w.injectables _ dummyInjectable

/-- C10: every context — the root and every child — registers itself as a
value dependency at construction time under the `Context` class and its
superclass chain (up to `Object`), so resolving the `Context` qualifier on
any context returns that context itself; and during construction of a
producer owned by context C, a parameter with qualifier `Context` resolves
to C — the owning context — even when the request was made on a descendant
of C. -/
theorem C10_context_self_registration (w : World) (parent : Option Nat)
    (f : Nat) :
    tblGet (getCtx (newContext w parent).2 (newContext w parent).1).table
        (Qualifier.typ contextClass) = some w.injectables.length
    ∧ tblGet (getCtx (newContext w parent).2 (newContext w parent).1).table
        (Qualifier.typ objectClass) = some w.injectables.length
    ∧ (contextGet (f + 5) (newContext w parent).2 (newContext w parent).1
        (Qualifier.typ contextClass) none).1
      = .ok (.val (.ctx (newContext w parent).1))
    ∧ (contextGet 20 c10World 2 (.typ ownClass) none).1
      = .ok (.val (.obj ownClass [.ctx 1])) := by
  obtain ⟨ha, hb⟩ := newContext_parts w parent
  refine ⟨?_, ?_, ?_, by rfl⟩
  · rw [ha]
    simp [tblGet]
  · rw [ha]
    simp [tblGet, contextClass, objectClass]
  · have ha2 : getCtx { (newContext w parent).2 with
        active := w.contexts.length } w.contexts.length
        = ⟨parent, [(Qualifier.typ contextClass, w.injectables.length),
                    (Qualifier.typ objectClass, w.injectables.length)]⟩ := ha
    have hb2 : getInj { (newContext w parent).2 with
        active := w.contexts.length } w.injectables.length
        = ⟨contextClass, fun _ => .ok (.ctx w.contexts.length), [], [],
           .SINGLETON, none⟩ := hb
    have hcid : (newContext w parent).1 = w.contexts.length := rfl
    simp [contextGet, injectableGet, getSingletonInstance, createNewInstance,
      resolveValues, ha2, hb2, tblGet, logInvoke, hcid]

/-! ### Witnesses and the C9 counterexample -/

/-- C1 witness: in the concrete async scenario, `Test`'s single resolved
parameter value is the in-flight promise 0, and construction returns the
fresh pending join promise without invoking the recipe. -/
theorem C1_witness :
    resolveValues 10 c1World 1 (.typ testClass)
        ((none : Option (List Val)).getD []) (getInj c1World 3).params 0
      = (.ok [.prom 0], c1Mid)
    ∧ createNewInstance 11 c1World 3 1 (.typ testClass) none
      = (.ok (.prom c1Mid.promises.length),
         { c1Mid with promises :=
             c1Mid.promises ++ [⟨.pending (.join [.prom 0] 3 (.typ testClass)), []⟩] }) := by
  have h : resolveValues 10 c1World 1 (.typ testClass)
      ((none : Option (List Val)).getD []) (getInj c1World 3).params 0
      = (.ok [.prom 0], c1Mid) := rfl
  exact ⟨h, ((C1_sync_async_collapse 10 c1World c1Mid 3 1 (.typ testClass) none
    [.prom 0] h).1 rfl).1⟩

/-- C2 witness: after the first `get(Test)` the singleton slot holds the
in-flight promise 1, a second call returns exactly that stored promise with
the world unchanged, and settling the dependency promise 0 overwrites the
`AsyncDep` slot with the settled plain value. -/
theorem C2_witness :
    (getInj c2After 3).inst = some (.prom 1)
    ∧ getSingletonInstance 9 c2After 3 1 (.typ testClass) = (.ok (.prom 1), c2After)
    ∧ getProm c2After 0 = ⟨.pending (.root (.ok (.num 23))), [2]⟩
    ∧ (getInj (stepPromise c2After 0) 2).inst = some (.val (.num 23)) := by
  have h1 : (getInj c2After 3).inst = some (.prom 1) := rfl
  have h3 : getProm c2After 0 = ⟨.pending (.root (.ok (.num 23))), [2]⟩ := rfl
  have hlen : (2 : Nat) < c2After.injectables.length := by
    rw [show c2After.injectables.length = 4 from rfl]
    decide
  exact ⟨h1,
    (C2_singleton_at_most_once 8 c2After c2After 3 1 (.typ testClass) none
      (.prom 1) c2After 0 (.num 23) [2]).1 h1,
    h3,
    (C2_singleton_at_most_once 8 c2After c2After 2 1 (.typ testClass) none
      (.prom 1) c2After 0 (.num 23) [2]).2.2.2.2 h3 (by decide) hlen⟩

/-- C3 witness: registering `Sub extends Base` under the name `n` makes it
resolvable via `Base`, via `n`, and via `(Base, n)`; and on the async
scenario, looking the cached `Test` singleton up via its superclass
`Object` returns the same cached in-flight promise. -/
theorem C3_witness :
    tblGet (setInjectableKeys [] subClass [.str "n"] 3) (Qualifier.typ baseClass)
      = some 3
    ∧ tblGet (setInjectableKeys [] subClass [.str "n"] 3) (Qualifier.nm (.str "n"))
      = some 3
    ∧ tblGet (setInjectableKeys [] subClass [.str "n"] 3)
        (qualify baseClass (.str "n")) = some 3
    ∧ contextGet 3 c2After 1 (Qualifier.typ objectClass) none
      = (.ok (.prom 1), c2After) := by
  refine ⟨(C3_registration_fanout [] subClass [.str "n"] 3 baseClass (.str "n")).1
      (by decide),
    (C3_registration_fanout [] subClass [.str "n"] 3 baseClass (.str "n")).2.1
      (by decide) (by decide),
    (C3_registration_fanout [] subClass [.str "n"] 3 baseClass (.str "n")).2.2.1
      (by decide) (by decide),
    (C3_registration_fanout [] subClass [.str "n"] 3 baseClass (.str "n")).2.2.2
      0 c2After 1 none (Qualifier.typ objectClass) (.prom 1) rfl rfl rfl⟩

/-- C5 witness: with producer parameters `[pass-through, DepA, pass-through]`
and caller arguments `["a", 7]`, the resolved value list is
`["a", <DepA instance>, 7]`. -/
theorem C5_witness :
    contextGet 10 c5World 1 (.typ depA) none
      = (.ok (.val (.obj depA [])), c5Res)
    ∧ resolveValues 12 c5World 1 (.typ compClass) [.strV "a", .num 7]
        [none, some (.typ depA), none] 0
      = (.ok [.val (.strV "a"), .val (.obj depA []), .val (.num 7)], c5Res) := by
  have h1 : contextGet 10 c5World 1 (.typ depA) none
      = (.ok (.val (.obj depA [])), c5Res) := rfl
  exact ⟨h1, (C5_pass_through_interleaving 8 c5World c5Res 3 1 (.typ compClass)
    (.typ depA) (.strV "a") (.num 7) (.obj depA []) h1).1⟩

/-- C6 witness: a name registered nowhere on the chain fails with `NotFound`
and leaves the world untouched. -/
theorem C6_witness :
    hasQ 5 childWorld 1 (.nm (.str "nope")) = false
    ∧ contextGet 5 childWorld 1 (.nm (.str "nope")) none
      = (.err (.notFound (.nm (.str "nope"))), childWorld) := by
  have h : hasQ 5 childWorld 1 (.nm (.str "nope")) = false := rfl
  exact ⟨h, ((C6_lookup_walk 5 childWorld 1 (.nm (.str "nope")) none).2.2.1 h).1⟩

/-- C7 witness: `get(Test)` returns the still-pending promise 1, so
`getSync(Test)` throws `SyncRequiredOnAsync`. -/
theorem C7_witness :
    contextGet 20 c1World 1 (.typ testClass) none = (.ok (.prom 1), c2After)
    ∧ getSyncF 20 c1World 1 (.typ testClass) none
      = (.err (.syncRequired (.typ testClass)), c2After) := by
  have h : contextGet 20 c1World 1 (.typ testClass) none
      = (.ok (.prom 1), c2After) := rfl
  exact ⟨h, (C7_getSync_getAsync 20 c1World c2After 1 (.typ testClass) none
    (.num 0) 1 (.userErr "")).1 h⟩

/-- C8 witness: the interleaved list `[pass-through, DepA, pass-through]`
of the `Component` producer, called with the single argument `"test"`,
fails at the second pass-through position (absolute position 3) with
`PassThroughMissing` index 2 and no recipe invocation; and a
pass-through-only list of two positions with one argument also reports
index 2. -/
theorem C8_witness :
    contextGet 10 c5World 1 (.typ depA) none
      = (.ok (.val (.obj depA [])), c5Res)
    ∧ resolveValues 12 c5World 1 (.typ compClass) [.strV "test"]
        [.none, .some (.typ depA), .none] 0
      = (.err (.passThroughMissing 2 (.typ compClass)), c5Res)
    ∧ createNewInstance 13 c5World 3 1 (.typ compClass) (some [.strV "test"])
      = (.err (.passThroughMissing 2 (.typ compClass)), c5Res)
    ∧ (createNewInstance 13 c5World 3 1 (.typ compClass)
        (some [.strV "test"])).2.invocations = c5Res.invocations
    ∧ resolveValues 2 childWorld 1 (.nm (.str "t")) [.strV "test"]
        (List.replicate 2 none) 0
      = (.err (.passThroughMissing 2 (.nm (.str "t"))), childWorld) := by
  have hx : contextGet 10 c5World 1 (.typ depA) none
      = (.ok (.val (.obj depA [])), c5Res) := rfl
  have h4 := (C8_pass_through_missing 9 c5World c5Res 3 1 (.typ compClass)
    (.typ depA) [.strV "test"] [] 0 (.strV "test") (.obj depA [])).2.2.2.1 hx
  have h5 := ((C8_pass_through_missing 1 childWorld childWorld 0 1
    (.nm (.str "t")) (.nm (.str "t")) [.strV "test"] [] 0 (.num 0)
    (.num 0)).2.2.2.2.1 2 (by decide) (by decide)).1
  obtain ⟨hmid, hcni⟩ := h4
  obtain ⟨hcn, hinv⟩ := hcni rfl
  exact ⟨hx, hmid, hcn, hinv, by simpa using h5⟩

/-- C9 counterexample: the concrete rejecting-singleton run refutes the
claim as stated — the cache slot is populated with the construction promise
immediately (before settlement, so not "only on successful settlement"),
and after the promise rejects a re-query returns that same stored rejected
promise with no second recipe invocation: the code replays the stored
error instead of retrying construction. -/
theorem C9_counterexample :
    (contextGet 20 c9World 1 (.typ failClass) none).1 = .ok (.prom 0)
    ∧ (getInj c9AfterFirst 2).inst = some (.prom 0)
    ∧ (getProm c9Settled 0).state = .rejected (.userErr "boom")
    ∧ (getInj c9Settled 2).inst = some (.prom 0)
    ∧ (contextGet 20 c9Settled 1 (.typ failClass) none).1 = .ok (.prom 0)
    ∧ (contextGet 20 c9Settled 1 (.typ failClass) none).2.invocations
        = c9Settled.invocations
    ∧ c9Settled.invocations = [(2, [])] :=
  ⟨rfl, rfl, rfl, rfl, rfl, rfl, rfl⟩

/-- C9 witness (for the amended claim): in the concrete scenario the slot
keeps the rejected promise 0, a later `get` replays it with the world
unchanged, and the rejection ran no slot-overwriting reaction. -/
theorem C9_witness :
    (getInj c9Settled 2).inst = some (.prom 0)
    ∧ getSingletonInstance 9 c9Settled 2 1 (.typ failClass)
      = (.ok (.prom 0), c9Settled)
    ∧ getProm c9AfterFirst 0 = ⟨.pending (.root (.error (.userErr "boom"))), [2]⟩
    ∧ (stepPromise c9AfterFirst 0).injectables = c9AfterFirst.injectables := by
  have h1 : (getInj c9Settled 2).inst = some (.prom 0) := rfl
  have h3 : getProm c9AfterFirst 0
      = ⟨.pending (.root (.error (.userErr "boom"))), [2]⟩ := rfl
  exact ⟨h1,
    (C9_failed_singleton_caching 8 c9Settled c9Settled 2 1 (.typ failClass)
      (.userErr "boom") 0 c9AfterFirst [2]).2.1 h1,
    h3,
    ((C9_failed_singleton_caching 8 c9Settled c9Settled 2 1 (.typ failClass)
      (.userErr "boom") 0 c9AfterFirst [2]).2.2 h3).1⟩

end CDI
